import Mathlib

/-!
Verification development for the DebtGuardian repository (main.py).

The file shallowly embeds the pure control flow of main.py: the retry and
backoff wrapper call_openai_api, the request construction of debtDetect, the
helpers is_source_code and url_to_filename, and the traversal and persistence
driver main. Remote calls, console printing and the filesystem are modelled
as explicit data: the backend is a function from the attempt index to an
outcome, console output of the wrapper is a list of abstract print events,
and the persisted JSON file is an optional in-memory store value.
-/

namespace DebtGuardian

/-! ### String helpers

These model the Python substring test (the in operator on strings) and the
regex search used in call_openai_api. -/

/-- Boolean test that the second list is an initial segment of the first. -/
def charsStartWith : List Char → List Char → Bool
  | _, [] => true
  | [], _ :: _ => false
  | a :: as, b :: bs => (a == b) && charsStartWith as bs

/-- Boolean test that the second list occurs as a contiguous sublist of the
first, modelling the Python expression needle in haystack on strings. -/
def charsContain : List Char → List Char → Bool
  | [], needle => needle.isEmpty
  | c :: rest, needle => charsStartWith (c :: rest) needle || charsContain rest needle

/-- Python substring containment: needle in haystack. -/
def strContains (haystack needle : String) : Bool :=
  charsContain haystack.data needle.data

/-- Decimal value of a list of digit characters, as int() of the regex group. -/
def digitsToNat (ds : List Char) : Nat :=
  ds.foldl (fun acc c => acc * 10 + (c.toNat - 48)) 0

/-- Attempt to match, at the head of the list, the regex pattern of
call_openai_api (main.py line 84): one or more digits, one or more whitespace
characters, then the literal word second (an optional trailing s does not
affect whether a match exists). Returns the integer group on success. -/
def matchAtPos (l : List Char) : Option Nat :=
  let ds := l.takeWhile Char.isDigit
  if ds.isEmpty then none
  else
    let r1 := l.drop ds.length
    let ws := r1.takeWhile Char.isWhitespace
    if ws.isEmpty then none
    else
      let r2 := r1.drop ws.length
      if charsStartWith r2 ("second".data) then some (digitsToNat ds) else none

/-- Leftmost match search over all start positions, as re.search does. -/
def searchSeconds : List Char → Option Nat
  | [] => none
  | c :: rest =>
    match matchAtPos (c :: rest) with
    | some n => some n
    | none => searchSeconds rest

/-- Model of re.search applied to the digits-whitespace-second pattern in
call_openai_api (main.py line 84), returning the captured integer of the
first match, or none when the text contains no such pattern. -/
def matchSecondsPattern (s : String) : Option Nat :=
  searchSeconds s.data

/-! ### Retry and backoff wrapper call_openai_api (main.py lines 60-93)

One attempt of openai.ChatCompletion.create is modelled by an ApiOutcome:
success, an InvalidRequestError carrying its message text, or any other
exception carrying its message text. The backend is a function from the
attempt index to the outcome of that attempt. Console output is recorded as
abstract print events (text formatting and the wrap_text width are not part
of the model). The local Python variable named seconds is modelled by an
Option Nat that starts as none, capturing that referencing it before any
assignment raises UnboundLocalError.

The raise statement on main.py line 93 sits in an else clause attached to
the try statement, so it would run only if the try block finished without
returning and without raising; since the try block ends in a return, that
clause is unreachable and is therefore absent from the embedding: when the
loop exhausts its attempts, the Python function falls through and returns
None, which the embedding records as CallResult.retNone. -/

/-- Outcome of a single attempt of the remote backend call, as observed by
the except clauses of call_openai_api. -/
inductive ApiOutcome
  | ok (response : String)
  | invalidRequest (msg : String)
  | genericError (msg : String)
deriving DecidableEq, Repr

/-- Abstract console events printed by call_openai_api. -/
inductive PrintEvent
  | tokenLimitMsg
  | errorMsg (msg : String)
  | secondsFound (n : Nat)
  | secondsNotFound
  | retryingIn (n : Nat)
deriving DecidableEq, Repr

/-- Uncaught exception raised by the body of call_openai_api itself. -/
inductive CallErr
  | unboundLocalError
deriving DecidableEq, Repr

/-- How a call of call_openai_api ends: with a response, by returning None
(falling off the loop or breaking out of it), or by raising. -/
inductive CallResult
  | ok (response : String)
  | retNone
  | exn (e : CallErr)
deriving DecidableEq, Repr

/-- A call ends in a terminal error exactly when it raises. -/
def CallResult.isTerminalError : CallResult → Bool
  | .exn _ => true
  | _ => false

/-- Observable trace of one call of call_openai_api: how it ended, how many
backend attempts it made, the sleep durations it performed in order, and the
console events it printed. -/
structure CallTrace where
  result : CallResult
  attempts : Nat
  sleeps : List Nat
  prints : List PrintEvent
deriving DecidableEq, Repr

/-- Loop body of call_openai_api. The fuel argument is the number of loop
iterations remaining, idx the index of the next backend attempt, seconds the
current binding of the local variable of that name (none when unassigned). -/
def callLoop (backend : Nat → ApiOutcome) (fuel idx : Nat) (seconds : Option Nat)
    (attempts : Nat) (sleeps : List Nat) (prints : List PrintEvent) : CallTrace :=
  match fuel with
  | 0 => { result := CallResult.retNone, attempts := attempts, sleeps := sleeps, prints := prints }
  | fuel' + 1 =>
    match backend idx with
    | ApiOutcome.ok r =>
      { result := CallResult.ok r, attempts := attempts + 1, sleeps := sleeps, prints := prints }
    | ApiOutcome.invalidRequest msg =>
      if strContains msg "Maximum context length" && strContains msg "tokens" then
        { result := CallResult.retNone, attempts := attempts + 1, sleeps := sleeps,
          prints := prints ++ [PrintEvent.tokenLimitMsg] }
      else
        callLoop backend fuel' (idx + 1) seconds (attempts + 1) sleeps prints
    | ApiOutcome.genericError msg =>
      match matchSecondsPattern msg with
      | some n =>
        callLoop backend fuel' (idx + 1) (some n) (attempts + 1) (sleeps ++ [n])
          (prints ++ [PrintEvent.errorMsg msg, PrintEvent.secondsFound n, PrintEvent.retryingIn n])
      | none =>
        match seconds with
        | none =>
          { result := CallResult.exn CallErr.unboundLocalError, attempts := attempts + 1,
            sleeps := sleeps,
            prints := prints ++ [PrintEvent.errorMsg msg, PrintEvent.secondsNotFound] }
        | some s =>
          callLoop backend fuel' (idx + 1) (some s) (attempts + 1) (sleeps ++ [s])
            (prints ++ [PrintEvent.errorMsg msg, PrintEvent.secondsNotFound, PrintEvent.retryingIn s])

/-- Model of call_openai_api (main.py lines 60-93) with an explicit retry
budget, returning the observable trace of the call. -/
def call_openai_api (backend : Nat → ApiOutcome) (retries : Nat) : CallTrace :=
  callLoop backend retries 0 none 0 [] []

/-! ### Request construction of debtDetect (main.py lines 194-205) -/

/-- The callable that debtDetect hands to the guard as the llm_api argument:
either the raw openai.ChatCompletion.create, or the wrapper call_openai_api
defined in this repository. -/
inductive ApiCallable
  | chatCompletionCreate
  | wrapperCallOpenaiApi
deriving DecidableEq, Repr

/-- The request that debtDetect submits through the guard object: which
callable performs the remote call, the prompt parameter carrying the file
content, the engine name and the token cap. The temperature argument of the
source is a float and is not part of the model. -/
structure GuardRequest where
  llm_api : ApiCallable
  code_changes : String
  engine : String
  max_tokens : Nat
deriving DecidableEq, Repr

/-- Model of the guard invocation inside debtDetect (main.py lines 197-203):
the callable passed as first positional argument is openai.ChatCompletion.create
and the prompt parameter carries the analyzed file content verbatim. -/
def debtDetectRequest (code_changes : String) : GuardRequest :=
  { llm_api := ApiCallable.chatCompletionCreate
  , code_changes := code_changes
  , engine := "jaipetefort"
  , max_tokens := 1024 }

/-! ### File-name helpers (main.py lines 208-256) -/

/-- Index of the last occurrence of a character in a list, if any. -/
def lastIdxOf (c : Char) : List Char → Option Nat
  | [] => none
  | a :: rest =>
    match lastIdxOf c rest with
    | some i => some (i + 1)
    | none => if a == c then some 0 else none

/-- Extension part of os.path.splitext on a posix path: the segment from the
last dot of the basename, provided that dot is not part of a run of leading
dots of the basename. -/
def splitext_ext (p : String) : String :=
  let l := p.data
  let sepIdx : Int := match lastIdxOf '/' l with | some i => (i : Int) | none => -1
  let dotIdx : Int := match lastIdxOf '.' l with | some i => (i : Int) | none => -1
  if sepIdx < dotIdx then
    let start := (sepIdx + 1).toNat
    let base := l.drop start
    let mid := base.take (dotIdx.toNat - start)
    if mid.any (fun ch => ch != '.') then String.mk (l.drop dotIdx.toNat) else ""
  else ""

/-- The extension allow-list of is_source_code (main.py lines 222-226). -/
def source_code_extensions : List String :=
  [".c", ".cpp", ".h", ".java", ".py", ".js", ".php",
   ".cs", ".rb", ".go", ".rs", ".ts", ".m", ".swift",
   ".f", ".f90", ".perl", ".sh", ".bash"]

/-- Model of is_source_code (main.py lines 208-230). -/
def is_source_code (filename : String) : Bool :=
  source_code_extensions.contains (splitext_ext filename)

/-- Characters replaced by an underscore in url_to_filename (main.py line 255). -/
def invalidFilenameChars : List Char :=
  ['\\', '/', '*', '?', '\"', '<', '>', '|', ':']

/-- Model of url_to_filename (main.py lines 253-256): each invalid filename
character of the URL is replaced by an underscore. -/
def url_to_filename (url : String) : String :=
  String.mk (url.data.map (fun c => if invalidFilenameChars.contains c then '_' else c))

/-- Name of the persisted store file for a repository URL (main.py line 262). -/
def debts_file (repo_url : String) : String :=
  url_to_filename repo_url ++ "_debts.json"

/-! ### Traversal and persistence driver main (main.py lines 261-291)

The JSON store is an association list from commit hash to value, with the
insertion-order-preserving overwrite semantics of a Python dict. A value is
either one loaded from disk, abstract except for its Python truthiness, or an
enriched result produced during the run (a non-empty dict, hence truthy).
The debtDetect call together with the guard validation loop is abstracted as
the analyze parameter: Except.ok is a validated output, Except.error is any
exception escaping the analysis of one file (the source wraps that call in no
try statement, so such an exception propagates out of main). Console printing
of the driver is not modelled; instead the trace records every (commit hash,
file path) pair on which the extraction client is invoked. -/

/-- Payload of a validated analysis result, kept abstract. -/
abbrev Debt := String

/-- Result of one file analysis after the driver attaches the location and
repository keys (main.py lines 284-285). -/
structure EnrichedDebt where
  payload : Debt
  location : String
  repository : String
deriving DecidableEq, Repr

/-- Value stored under a commit hash: either loaded from the JSON file at
start-up, abstract except for its truthiness, or produced this run. -/
inductive StoreVal
  | loaded (truthy : Bool)
  | enriched (e : EnrichedDebt)
deriving DecidableEq, Repr

/-- Python truthiness of a stored value; an enriched result is a non-empty
dict, hence truthy. -/
def StoreVal.isTruthy : StoreVal → Bool
  | .loaded b => b
  | .enriched _ => true

/-- The debts mapping, commit hash to stored value. -/
abbrev Store := List (String × StoreVal)

/-- Python dict lookup debts[k]. -/
def storeLookup (k : String) : Store → Option StoreVal
  | [] => none
  | (k1, v) :: rest => if k1 = k then some v else storeLookup k rest

/-- Python dict assignment debts[k] = v: overwrite in place, else append. -/
def storeInsert (k : String) (v : StoreVal) : Store → Store
  | [] => [(k, v)]
  | (k1, v1) :: rest =>
    if k1 = k then (k, v) :: rest else (k1, v1) :: storeInsert k v rest

/-- A modified file of a commit: its new path and its post-change content,
absent for a pure deletion (main.py lines 277-279). -/
structure ModifiedFile where
  new_path : String
  source_code : Option String
deriving DecidableEq, Repr

/-- A commit as yielded by the traversal collaborator. -/
structure Commit where
  hash : String
  modified_files : List ModifiedFile
deriving DecidableEq, Repr

/-- The file filter of main.py line 279: the content is truthy (present and
non-empty) and the new path has a recognized source extension. -/
def qualifies (m : ModifiedFile) : Bool :=
  (match m.source_code with
   | some s => s != ""
   | none => false) && is_source_code m.new_path

/-- State of one driver run: the in-memory debts dict, the content of the
store file on disk (none when it does not exist), the list of (commit hash,
file path) pairs on which debtDetect was invoked, and the pending uncaught
exception, if any. -/
structure RunState where
  debts : Store
  disk : Option Store
  calls : List (String × String)
  err : Option String
deriving DecidableEq, Repr

/-- The skip test of main.py line 271: commit.hash in debts and
debts[commit.hash] is truthy. -/
def skipCommit (h : String) (debts : Store) : Bool :=
  match storeLookup h debts with
  | some v => v.isTruthy
  | none => false

/-- Body of the inner file loop of main (main.py lines 277-291) for one
modified file: if no exception is pending and the file qualifies, invoke the
extraction client; on success enrich the result, write it under the commit
hash and dump the whole store to disk; on failure record the propagating
exception. -/
def processFile (analyze : String → Except String Debt) (repo h : String)
    (m : ModifiedFile) (st : RunState) : RunState :=
  if st.err.isSome then st
  else if qualifies m then
    let st1 : RunState := { st with calls := st.calls ++ [(h, m.new_path)] }
    match analyze (m.source_code.getD "") with
    | Except.ok d =>
      let debts1 := storeInsert h (StoreVal.enriched
        { payload := d, location := m.new_path, repository := repo }) st1.debts
      { st1 with debts := debts1, disk := some debts1 }
    | Except.error msg => { st1 with err := some msg }
  else st

/-- The inner file loop of main over a list of modified files. -/
def processFiles (analyze : String → Except String Debt) (repo h : String) :
    List ModifiedFile → RunState → RunState
  | [], st => st
  | m :: ms, st => processFiles analyze repo h ms (processFile analyze repo h m st)

/-- One iteration of the commit loop of main (main.py lines 270-291): with a
pending exception nothing further runs; a commit whose hash maps to a truthy
value is skipped; otherwise its modified files are processed in order. -/
def processCommit (analyze : String → Except String Debt) (repo : String)
    (c : Commit) (st : RunState) : RunState :=
  if st.err.isSome then st
  else if skipCommit c.hash st.debts then st
  else processFiles analyze repo c.hash c.modified_files st

/-- The commit loop of main over the whole commit sequence. -/
def processCommits (analyze : String → Except String Debt) (repo : String) :
    List Commit → RunState → RunState
  | [], st => st
  | c :: cs, st => processCommits analyze repo cs (processCommit analyze repo c st)

/-- Model of main (main.py lines 261-291): the debts dict starts from the
disk content only when resume is given and the file exists, and the commit
loop then runs over the traversal. -/
def main (analyze : String → Except String Debt) (repo_url : String)
    (resume : Bool) (disk0 : Option Store) (commits : List Commit) : RunState :=
  let debts0 : Store := if resume then disk0.getD [] else []
  processCommits analyze repo_url commits
    { debts := debts0, disk := disk0, calls := [], err := none }

/-- Boolean success test on an analysis outcome. -/
def exceptIsOk (r : Except String Debt) : Bool :=
  match r with
  | Except.ok _ => true
  | Except.error _ => false

/-- Result store effect of one successfully analyzed qualifying file. -/
def enrichFile (analyze : String → Except String Debt) (repo h : String)
    (m : ModifiedFile) (s : Store) : Store :=
  match analyze (m.source_code.getD "") with
  | Except.ok d => storeInsert h (StoreVal.enriched
      { payload := d, location := m.new_path, repository := repo }) s
  | Except.error _ => s

/-! ### Concrete fixtures used by witnesses and counterexamples -/

/-- Extraction client that always validates, echoing the file content. -/
def anOk : String → Except String Debt := fun s => Except.ok s

/-- Extraction client that raises on the content bad and validates elsewhere. -/
def exAnalyzeBad : String → Except String Debt :=
  fun s => if s = "bad" then Except.error "boom" else Except.ok s

/-- Backend whose every attempt fails with a throttling message that embeds
a five second wait. -/
def rateLimitBackend : Nat → ApiOutcome :=
  fun _ => ApiOutcome.genericError "Rate limit reached. Please retry after 5 seconds"

/-- Backend whose every attempt fails with a message that embeds no wait. -/
def vagueErrorBackend : Nat → ApiOutcome :=
  fun _ => ApiOutcome.genericError "Service temporarily unavailable"

/-- Backend whose first attempt fails with the context-length message. -/
def ctxBackend : Nat → ApiOutcome :=
  fun _ => ApiOutcome.invalidRequest "Maximum context length is 8192 tokens"

/-- Two-commit fixture whose first commit contains a failing file followed by
a good one, and whose second commit contains a good file. -/
def csC3 : List Commit :=
  [{ hash := "h1",
     modified_files := [{ new_path := "a.py", source_code := some "bad" },
                        { new_path := "b.py", source_code := some "good" }] },
   { hash := "h2",
     modified_files := [{ new_path := "c.py", source_code := some "good" }] }]

/-- Loaded store marking commit h1 as already processed. -/
def s0C6 : Store := [("h1", StoreVal.loaded true)]

/-- Two-commit fixture: h1 is marked done in s0C6, h2 is fresh. -/
def csC6 : List Commit :=
  [{ hash := "h1", modified_files := [{ new_path := "a.py", source_code := some "x" }] },
   { hash := "h2", modified_files := [{ new_path := "b.py", source_code := some "y" }] }]

/-- Run state carrying a pending exception. -/
def stErr : RunState := { debts := [], disk := none, calls := [], err := some "boom" }

/-- Run state holding one previously loaded entry and no pending exception. -/
def stH0 : RunState :=
  { debts := [("h0", StoreVal.loaded true)], disk := none, calls := [], err := none }

/-- One qualifying modified file. -/
def mA : ModifiedFile := { new_path := "a.py", source_code := some "x" }

/-- Commit with two qualifying modified files. -/
def cTwo : Commit :=
  { hash := "h1",
    modified_files := [{ new_path := "a.py", source_code := some "code1" },
                       { new_path := "b.py", source_code := some "code2" }] }

/-- Fresh empty run state. -/
def stEmpty : RunState := { debts := [], disk := none, calls := [], err := none }

/-- Previously persisted store of an earlier run. -/
def s0Old : Store := [("old", StoreVal.loaded true)]

/-- One-commit fixture used against the stale store s0Old. -/
def csNew : List Commit :=
  [{ hash := "h1", modified_files := [{ new_path := "a.py", source_code := some "x" }] }]

/-! ### Store lemmas -/

/-- Looking up the key just written returns the written value. -/
theorem storeLookup_insert_self (k : String) (v : StoreVal) :
    ∀ s : Store, storeLookup k (storeInsert k v s) = some v := by
  intro s
  induction s with
  | nil => simp [storeInsert, storeLookup]
  | cons hd tl ih =>
    obtain ⟨k1, v1⟩ := hd
    by_cases h : k1 = k
    · simp [storeInsert, storeLookup, h]
    · simp [storeInsert, storeLookup, h, ih]

/-- Writing one key leaves lookups of any other key unchanged. -/
theorem storeLookup_insert_ne (q k : String) (v : StoreVal) (hqk : q ≠ k) :
    ∀ s : Store, storeLookup q (storeInsert k v s) = storeLookup q s := by
  intro s
  have hkq : k ≠ q := fun h => hqk h.symm
  induction s with
  | nil => simp [storeInsert, storeLookup, hkq]
  | cons hd tl ih =>
    obtain ⟨k1, v1⟩ := hd
    by_cases h : k1 = k
    · subst h
      simp [storeInsert, storeLookup, hkq]
    · by_cases h2 : k1 = q <;> simp [storeInsert, storeLookup, h, h2, hqk, ih]

/-- Writing any key preserves presence of every key already present. -/
theorem storeLookup_isSome_insert (q k : String) (v : StoreVal) (s : Store)
    (h : (storeLookup q s).isSome = true) :
    (storeLookup q (storeInsert k v s)).isSome = true := by
  by_cases hqk : q = k
  · subst hqk
    rw [storeLookup_insert_self]
    rfl
  · rw [storeLookup_insert_ne q k v hqk]
    exact h

/-! ### Claims about the retry wrapper and the extraction client -/

/-- Claim C1 (code bug): a backend that fails transiently on all three
attempts makes call_openai_api exhaust its retry budget and then return None
normally (CallResult.retNone) instead of signalling a terminal failure. The
raise on main.py line 93 is unreachable because its else clause is attached
to the try statement whose block always returns. -/
theorem call_openai_api_returns_none_after_exhausting_retries :
    (call_openai_api rateLimitBackend 3).result = CallResult.retNone
    ∧ (call_openai_api rateLimitBackend 3).attempts = 3
    ∧ (call_openai_api rateLimitBackend 3).sleeps = [5, 5, 5] := by decide

/-- Claim C4 (code bug): on a first-attempt transient error whose message
contains no seconds pattern, call_openai_api does not proceed to the next
attempt; the reference to the never-assigned local variable seconds raises
UnboundLocalError, ending the call after a single attempt with no wait. -/
theorem call_openai_api_unbound_seconds_crash :
    (call_openai_api vagueErrorBackend 3).result = CallResult.exn CallErr.unboundLocalError
    ∧ (call_openai_api vagueErrorBackend 3).attempts = 1
    ∧ (call_openai_api vagueErrorBackend 3).sleeps = []
    ∧ (call_openai_api vagueErrorBackend 3).prints
        = [PrintEvent.errorMsg "Service temporarily unavailable",
           PrintEvent.secondsNotFound] := by decide

/-- Claim C5 counterexample: on a context-length failure call_openai_api
returns None normally after a single attempt; the result is not a terminal
error, contradicting that the condition is surfaced to the caller as one. -/
theorem context_length_not_terminal_error_cex :
    (call_openai_api ctxBackend 3).result = CallResult.retNone
    ∧ CallResult.isTerminalError (call_openai_api ctxBackend 3).result = false
    ∧ (call_openai_api ctxBackend 3).attempts = 1 := by decide

/-- Claim C5 as amended: on a failure whose message marks a context-length
overflow, call_openai_api makes no further attempts, sleeps never, prints the
explicit token-limit message, and returns None to its caller (a normal,
falsy return) rather than raising a terminal error. -/
theorem context_length_returns_none (backend : Nat → ApiOutcome) (retries : Nat) (msg : String)
    (hr : 1 ≤ retries) (hb : backend 0 = ApiOutcome.invalidRequest msg)
    (h1 : strContains msg "Maximum context length" = true)
    (h2 : strContains msg "tokens" = true) :
    call_openai_api backend retries
      = { result := CallResult.retNone, attempts := 1, sleeps := [],
          prints := [PrintEvent.tokenLimitMsg] } := by
  obtain ⟨k, rfl⟩ : ∃ k, retries = k + 1 :=
    ⟨retries - 1, (Nat.succ_pred_eq_of_pos hr).symm⟩
  simp [call_openai_api, callLoop, hb, h1, h2]

/-- Claim C5 witness: the amended statement applied to the concrete
context-length backend with the default retry budget of three. -/
theorem context_length_returns_none_witness :
    call_openai_api ctxBackend 3
      = { result := CallResult.retNone, attempts := 1, sleeps := [],
          prints := [PrintEvent.tokenLimitMsg] } :=
  context_length_returns_none ctxBackend 3 "Maximum context length is 8192 tokens"
    (by decide) rfl (by decide) (by decide)

/-- Claim C2 counterexample: the callable debtDetect hands to the guard is
the raw openai.ChatCompletion.create, not the wrapper call_openai_api, so the
request of this file content does not go through the retry wrapper. -/
theorem debtDetect_not_through_wrapper_cex :
    (debtDetectRequest "x").llm_api ≠ ApiCallable.wrapperCallOpenaiApi := by decide

/-- Claim C2 as amended: for every file content, debtDetect submits its
backend request by passing openai.ChatCompletion.create directly to the
guard, with the content as prompt parameter; the retry wrapper
call_openai_api is not used, so its bounded-retry behavior does not apply. -/
theorem debtDetect_uses_raw_backend_callable (code_changes : String) :
    debtDetectRequest code_changes
      = { llm_api := ApiCallable.chatCompletionCreate, code_changes := code_changes,
          engine := "jaipetefort", max_tokens := 1024 } := rfl

/-- Claim C9: the mapping from repository URL to store-file name is not
injective; the distinct URLs repo/a and repo:a are persisted to the same
debts file. -/
theorem store_filename_not_injective :
    ("repo/a" : String) ≠ "repo:a" ∧ debts_file "repo/a" = debts_file "repo:a" := by
  refine ⟨by decide, ?_⟩
  rfl

/-! ### Driver lemmas -/

/-- Exhaustive description of one file-loop step: either the state is
returned unchanged (pending exception or non-qualifying file), or the file
is analyzed successfully and the enriched result is stored and flushed, or
the analysis raises and the exception is recorded. -/
lemma processFile_cases (a : String → Except String Debt) (repo hsh : String)
    (m : ModifiedFile) (st : RunState) :
    processFile a repo hsh m st = st
    ∨ (∃ d, a (m.source_code.getD "") = Except.ok d
        ∧ processFile a repo hsh m st =
          { debts := storeInsert hsh (StoreVal.enriched
              { payload := d, location := m.new_path, repository := repo }) st.debts,
            disk := some (storeInsert hsh (StoreVal.enriched
              { payload := d, location := m.new_path, repository := repo }) st.debts),
            calls := st.calls ++ [(hsh, m.new_path)], err := st.err })
    ∨ (∃ msg, a (m.source_code.getD "") = Except.error msg
        ∧ processFile a repo hsh m st =
          { debts := st.debts, disk := st.disk,
            calls := st.calls ++ [(hsh, m.new_path)], err := some msg }) := by
  by_cases he : st.err.isSome = true
  · exact Or.inl (by simp [processFile, he])
  · by_cases hq : qualifies m = true
    · cases hA : a (m.source_code.getD "") with
      | ok d =>
        refine Or.inr (Or.inl ⟨d, rfl, ?_⟩)
        simp [processFile, he, hq, hA]
      | error msg =>
        refine Or.inr (Or.inr ⟨msg, rfl, ?_⟩)
        simp [processFile, he, hq, hA]
    · exact Or.inl (by simp [processFile, he, hq])

/-- With a pending exception, a file step changes nothing. -/
lemma processFile_err (a : String → Except String Debt) (repo hsh : String)
    (m : ModifiedFile) (st : RunState) (he : st.err.isSome = true) :
    processFile a repo hsh m st = st := by
  simp [processFile, he]

/-- With a pending exception, the file loop changes nothing. -/
lemma processFiles_err (a : String → Except String Debt) (repo hsh : String)
    (ms : List ModifiedFile) (st : RunState) (he : st.err.isSome = true) :
    processFiles a repo hsh ms st = st := by
  induction ms with
  | nil => rfl
  | cons m ms ih =>
    show processFiles a repo hsh ms (processFile a repo hsh m st) = st
    rw [processFile_err a repo hsh m st he]
    exact ih

/-- With a pending exception, a commit step changes nothing. -/
lemma processCommit_err (a : String → Except String Debt) (repo : String)
    (c : Commit) (st : RunState) (he : st.err.isSome = true) :
    processCommit a repo c st = st := by
  simp [processCommit, he]

/-- With a pending exception, the commit loop changes nothing. -/
lemma processCommits_err (a : String → Except String Debt) (repo : String)
    (cs : List Commit) (st : RunState) (he : st.err.isSome = true) :
    processCommits a repo cs st = st := by
  induction cs with
  | nil => rfl
  | cons c cs ih =>
    show processCommits a repo cs (processCommit a repo c st) = st
    rw [processCommit_err a repo c st he]
    exact ih

/-- Inserting an enriched value preserves a truthy binding of any key. -/
lemma truthy_insert_enriched (hkey k : String) (e : EnrichedDebt) (s : Store)
    (H : ∃ v, storeLookup hkey s = some v ∧ v.isTruthy = true) :
    ∃ v, storeLookup hkey (storeInsert k (StoreVal.enriched e) s) = some v
      ∧ v.isTruthy = true := by
  obtain ⟨v, hv, ht⟩ := H
  by_cases hk : hkey = k
  · subst hk
    exact ⟨StoreVal.enriched e, storeLookup_insert_self hkey _ s, rfl⟩
  · refine ⟨v, ?_, ht⟩
    rw [storeLookup_insert_ne hkey k _ hk]
    exact hv

/-- A file step of a commit with a different hash preserves both a truthy
binding of the key and the absence of calls tagged with the key. -/
lemma processFile_truthy_inv (a : String → Except String Debt) (repo hsh hkey : String)
    (m : ModifiedFile) (st : RunState) (hne : hsh ≠ hkey)
    (Ht : ∃ v, storeLookup hkey st.debts = some v ∧ v.isTruthy = true)
    (Hc : ∀ p ∈ st.calls, p.1 ≠ hkey) :
    (∃ v, storeLookup hkey (processFile a repo hsh m st).debts = some v ∧ v.isTruthy = true)
    ∧ ∀ p ∈ (processFile a repo hsh m st).calls, p.1 ≠ hkey := by
  rcases processFile_cases a repo hsh m st with heq | ⟨d, hA, heq⟩ | ⟨msg, hA, heq⟩
  · rw [heq]
    exact ⟨Ht, Hc⟩
  · rw [heq]
    refine ⟨truthy_insert_enriched hkey hsh _ st.debts Ht, ?_⟩
    intro p hp
    rcases List.mem_append.mp hp with h1 | h1
    · exact Hc p h1
    · simp only [List.mem_singleton] at h1
      subst h1
      exact hne
  · rw [heq]
    refine ⟨Ht, ?_⟩
    intro p hp
    rcases List.mem_append.mp hp with h1 | h1
    · exact Hc p h1
    · simp only [List.mem_singleton] at h1
      subst h1
      exact hne

/-- The file loop of a commit with a different hash preserves the truthy
binding and the absence of calls tagged with the key. -/
lemma processFiles_truthy_inv (a : String → Except String Debt) (repo hsh hkey : String)
    (hne : hsh ≠ hkey) :
    ∀ (ms : List ModifiedFile) (st : RunState),
    (∃ v, storeLookup hkey st.debts = some v ∧ v.isTruthy = true) →
    (∀ p ∈ st.calls, p.1 ≠ hkey) →
    (∃ v, storeLookup hkey (processFiles a repo hsh ms st).debts = some v ∧ v.isTruthy = true)
    ∧ ∀ p ∈ (processFiles a repo hsh ms st).calls, p.1 ≠ hkey := by
  intro ms
  induction ms with
  | nil => intro st Ht Hc; exact ⟨Ht, Hc⟩
  | cons m ms ih =>
    intro st Ht Hc
    obtain ⟨Ht1, Hc1⟩ := processFile_truthy_inv a repo hsh hkey m st hne Ht Hc
    exact ih (processFile a repo hsh m st) Ht1 Hc1

/-- A commit step preserves the truthy binding of a key and never produces a
call tagged with that key: a commit carrying the key itself is skipped, and
any other commit tags its calls with its own different hash. -/
lemma processCommit_truthy_inv (a : String → Except String Debt) (repo hkey : String)
    (c : Commit) (st : RunState)
    (Ht : ∃ v, storeLookup hkey st.debts = some v ∧ v.isTruthy = true)
    (Hc : ∀ p ∈ st.calls, p.1 ≠ hkey) :
    (∃ v, storeLookup hkey (processCommit a repo c st).debts = some v ∧ v.isTruthy = true)
    ∧ ∀ p ∈ (processCommit a repo c st).calls, p.1 ≠ hkey := by
  by_cases he : st.err.isSome = true
  · rw [processCommit_err a repo c st he]
    exact ⟨Ht, Hc⟩
  · by_cases hs : skipCommit c.hash st.debts = true
    · have : processCommit a repo c st = st := by simp [processCommit, he, hs]
      rw [this]
      exact ⟨Ht, Hc⟩
    · have hne : c.hash ≠ hkey := by
        intro hEq
        obtain ⟨v, hv, ht⟩ := Ht
        apply hs
        rw [hEq]
        simp [skipCommit, hv, ht]
      have hpc : processCommit a repo c st
          = processFiles a repo c.hash c.modified_files st := by
        simp [processCommit, he, hs]
      rw [hpc]
      exact processFiles_truthy_inv a repo c.hash hkey hne c.modified_files st Ht Hc

/-- The commit loop preserves the truthy binding of a key and never produces
a call tagged with that key. -/
lemma processCommits_truthy_inv (a : String → Except String Debt) (repo hkey : String) :
    ∀ (cs : List Commit) (st : RunState),
    (∃ v, storeLookup hkey st.debts = some v ∧ v.isTruthy = true) →
    (∀ p ∈ st.calls, p.1 ≠ hkey) →
    (∃ v, storeLookup hkey (processCommits a repo cs st).debts = some v ∧ v.isTruthy = true)
    ∧ ∀ p ∈ (processCommits a repo cs st).calls, p.1 ≠ hkey := by
  intro cs
  induction cs with
  | nil => intro st Ht Hc; exact ⟨Ht, Hc⟩
  | cons c cs ih =>
    intro st Ht Hc
    obtain ⟨Ht1, Hc1⟩ := processCommit_truthy_inv a repo hkey c st Ht Hc
    exact ih (processCommit a repo c st) Ht1 Hc1

/-- Inserting an enriched value preserves the property that every stored
value is an enriched result of this run. -/
lemma allEnriched_insert (k : String) (e : EnrichedDebt) (s : Store)
    (H : ∀ q v, storeLookup q s = some v → ∃ e2, v = StoreVal.enriched e2) :
    ∀ q v, storeLookup q (storeInsert k (StoreVal.enriched e) s) = some v →
      ∃ e2, v = StoreVal.enriched e2 := by
  intro q v hv
  by_cases hq : q = k
  · subst hq
    rw [storeLookup_insert_self] at hv
    exact ⟨e, (Option.some.inj hv).symm⟩
  · rw [storeLookup_insert_ne q k _ hq] at hv
    exact H q v hv

/-- A file step preserves the run invariant: every stored value is enriched,
and the disk either still holds its initial content or a full copy of the
current in-memory store. -/
lemma processFile_storeInv (a : String → Except String Debt) (repo hsh : String)
    (m : ModifiedFile) (st : RunState) (d0 : Option Store)
    (H1 : ∀ q v, storeLookup q st.debts = some v → ∃ e, v = StoreVal.enriched e)
    (H2 : st.disk = d0 ∨ st.disk = some st.debts) :
    (∀ q v, storeLookup q (processFile a repo hsh m st).debts = some v →
        ∃ e, v = StoreVal.enriched e)
    ∧ ((processFile a repo hsh m st).disk = d0
       ∨ (processFile a repo hsh m st).disk = some (processFile a repo hsh m st).debts) := by
  rcases processFile_cases a repo hsh m st with heq | ⟨d, hA, heq⟩ | ⟨msg, hA, heq⟩
  · rw [heq]
    exact ⟨H1, H2⟩
  · rw [heq]
    exact ⟨allEnriched_insert hsh _ st.debts H1, Or.inr rfl⟩
  · rw [heq]
    exact ⟨H1, H2⟩

/-- The file loop preserves the run invariant. -/
lemma processFiles_storeInv (a : String → Except String Debt) (repo hsh : String)
    (d0 : Option Store) :
    ∀ (ms : List ModifiedFile) (st : RunState),
    (∀ q v, storeLookup q st.debts = some v → ∃ e, v = StoreVal.enriched e) →
    (st.disk = d0 ∨ st.disk = some st.debts) →
    (∀ q v, storeLookup q (processFiles a repo hsh ms st).debts = some v →
        ∃ e, v = StoreVal.enriched e)
    ∧ ((processFiles a repo hsh ms st).disk = d0
       ∨ (processFiles a repo hsh ms st).disk = some (processFiles a repo hsh ms st).debts) := by
  intro ms
  induction ms with
  | nil => intro st H1 H2; exact ⟨H1, H2⟩
  | cons m ms ih =>
    intro st H1 H2
    obtain ⟨H1a, H2a⟩ := processFile_storeInv a repo hsh m st d0 H1 H2
    exact ih (processFile a repo hsh m st) H1a H2a

/-- A commit step preserves the run invariant. -/
lemma processCommit_storeInv (a : String → Except String Debt) (repo : String)
    (c : Commit) (st : RunState) (d0 : Option Store)
    (H1 : ∀ q v, storeLookup q st.debts = some v → ∃ e, v = StoreVal.enriched e)
    (H2 : st.disk = d0 ∨ st.disk = some st.debts) :
    (∀ q v, storeLookup q (processCommit a repo c st).debts = some v →
        ∃ e, v = StoreVal.enriched e)
    ∧ ((processCommit a repo c st).disk = d0
       ∨ (processCommit a repo c st).disk = some (processCommit a repo c st).debts) := by
  by_cases he : st.err.isSome = true
  · rw [processCommit_err a repo c st he]
    exact ⟨H1, H2⟩
  · by_cases hs : skipCommit c.hash st.debts = true
    · have heq : processCommit a repo c st = st := by simp [processCommit, he, hs]
      rw [heq]
      exact ⟨H1, H2⟩
    · have heq : processCommit a repo c st
          = processFiles a repo c.hash c.modified_files st := by
        simp [processCommit, he, hs]
      rw [heq]
      exact processFiles_storeInv a repo c.hash d0 c.modified_files st H1 H2

/-- The commit loop preserves the run invariant. -/
lemma processCommits_storeInv (a : String → Except String Debt) (repo : String)
    (d0 : Option Store) :
    ∀ (cs : List Commit) (st : RunState),
    (∀ q v, storeLookup q st.debts = some v → ∃ e, v = StoreVal.enriched e) →
    (st.disk = d0 ∨ st.disk = some st.debts) →
    (∀ q v, storeLookup q (processCommits a repo cs st).debts = some v →
        ∃ e, v = StoreVal.enriched e)
    ∧ ((processCommits a repo cs st).disk = d0
       ∨ (processCommits a repo cs st).disk = some (processCommits a repo cs st).debts) := by
  intro cs
  induction cs with
  | nil => intro st H1 H2; exact ⟨H1, H2⟩
  | cons c cs ih =>
    intro st H1 H2
    obtain ⟨H1a, H2a⟩ := processCommit_storeInv a repo c st d0 H1 H2
    exact ih (processCommit a repo c st) H1a H2a

/-- Trace of the file loop on a commit that is actually processed: no
exception remains pending when every qualifying file validates, debtDetect
is invoked on exactly the qualifying files in order, and the resulting store
is the left fold of the per-file insertions. -/
lemma processFiles_spec (a : String → Except String Debt) (repo hsh : String) :
    ∀ (ms : List ModifiedFile) (st : RunState),
    st.err = none →
    (ms.filter qualifies).all (fun m => exceptIsOk (a (m.source_code.getD ""))) = true →
    (processFiles a repo hsh ms st).err = none
    ∧ (processFiles a repo hsh ms st).calls
        = st.calls ++ (ms.filter qualifies).map (fun m => (hsh, m.new_path))
    ∧ (processFiles a repo hsh ms st).debts
        = (ms.filter qualifies).foldl (fun s m => enrichFile a repo hsh m s) st.debts := by
  intro ms
  induction ms with
  | nil =>
    intro st herr _
    exact ⟨herr, by simp [processFiles], by simp [processFiles]⟩
  | cons m ms ih =>
    intro st herr hall
    have he : st.err.isSome = false := by rw [herr]; rfl
    have hunf : processFiles a repo hsh (m :: ms) st
        = processFiles a repo hsh ms (processFile a repo hsh m st) := rfl
    by_cases hq : qualifies m = true
    · have hfil : (m :: ms).filter qualifies = m :: ms.filter qualifies := by
        simp [List.filter_cons, hq]
      rw [hfil] at hall ⊢
      rw [List.all_cons, Bool.and_eq_true] at hall
      obtain ⟨hallh, hallt⟩ := hall
      cases hA : a (m.source_code.getD "") with
      | error msg =>
        rw [hA] at hallh
        simp [exceptIsOk] at hallh
      | ok d =>
        have hstep : processFile a repo hsh m st =
            { debts := storeInsert hsh (StoreVal.enriched
                { payload := d, location := m.new_path, repository := repo }) st.debts,
              disk := some (storeInsert hsh (StoreVal.enriched
                { payload := d, location := m.new_path, repository := repo }) st.debts),
              calls := st.calls ++ [(hsh, m.new_path)], err := none } := by
          simp [processFile, he, hq, hA, herr]
        obtain ⟨i1, i2, i3⟩ := ih
          { debts := storeInsert hsh (StoreVal.enriched
              { payload := d, location := m.new_path, repository := repo }) st.debts,
            disk := some (storeInsert hsh (StoreVal.enriched
              { payload := d, location := m.new_path, repository := repo }) st.debts),
            calls := st.calls ++ [(hsh, m.new_path)], err := none } rfl hallt
        refine ⟨?_, ?_, ?_⟩
        · rw [hunf, hstep]
          exact i1
        · rw [hunf, hstep, i2]
          simp
        · rw [hunf, hstep, i3]
          simp [List.foldl_cons, enrichFile, hA]
    · have hfil : (m :: ms).filter qualifies = ms.filter qualifies := by
        simp [List.filter_cons, hq]
      rw [hfil] at hall ⊢
      have hstep : processFile a repo hsh m st = st := by
        simp [processFile, he, hq]
      rw [hunf, hstep]
      exact ih st herr hall

/-! ### Claims about the traversal and persistence driver -/

/-- Claim C3 counterexample: on the concrete two-commit history csC3, the
first analyzed file raises, the run ends with that exception pending, and
the extraction client is invoked only on that first file — the sibling file
b.py of the same commit and the whole second commit are never processed, so
the driver does not continue past a per-file terminal error. -/
theorem main_halts_on_file_error_cex :
    (main exAnalyzeBad "r" false none csC3).err = some "boom"
    ∧ (main exAnalyzeBad "r" false none csC3).calls = [("h1", "a.py")] := by decide

/-- Claim C3 as amended: a per-file terminal error does not let the driver
continue; the exception propagates, so once the run state carries a pending
error, no further commit and no further file is processed — the whole
traversal halts with that error. -/
theorem error_propagation_halts_run (a : String → Except String Debt) (repo : String)
    (st : RunState) (he : st.err.isSome = true) :
    (∀ cs : List Commit, processCommits a repo cs st = st)
    ∧ (∀ (hsh : String) (m : ModifiedFile), processFile a repo hsh m st = st) :=
  ⟨fun cs => processCommits_err a repo cs st he,
   fun hsh m => processFile_err a repo hsh m st he⟩

/-- Claim C3 witness: the amended statement applied to a state carrying a
pending exception, the two-commit fixture and a concrete file. -/
theorem error_propagation_halts_run_witness :
    processCommits anOk "r" csC3 stErr = stErr
    ∧ processFile anOk "r" "h9" mA stErr = stErr :=
  ⟨(error_propagation_halts_run anOk "r" stErr rfl).1 csC3,
   (error_propagation_halts_run anOk "r" stErr rfl).2 "h9" mA⟩

/-- Claim C6: when the store loaded at start-up binds a commit hash to a
truthy value, a resumed run never invokes the extraction client on any file
of a commit carrying that hash — every call the run makes is tagged with a
different hash. -/
theorem resume_skips_truthy_commit (a : String → Except String Debt)
    (repo hkey : String) (s0 : Store) (cs : List Commit) (v : StoreVal)
    (hv : storeLookup hkey s0 = some v) (ht : v.isTruthy = true) :
    ∀ p ∈ (main a repo true (some s0) cs).calls, p.1 ≠ hkey := by
  have hm : main a repo true (some s0) cs
      = processCommits a repo cs { debts := s0, disk := some s0, calls := [], err := none } := by
    simp [main]
  rw [hm]
  exact (processCommits_truthy_inv a repo hkey cs
    { debts := s0, disk := some s0, calls := [], err := none }
    ⟨v, hv, ht⟩ (by intro p hp; simp at hp)).2

/-- Claim C6 witness: with h1 marked done in the loaded store, the resumed
run calls the client only for commit h2, and that call is not tagged h1. -/
theorem resume_skips_truthy_commit_witness :
    ("h2", "b.py") ∈ (main anOk "r" true (some s0C6) csC6).calls
    ∧ ("h2" : String) ≠ "h1" :=
  ⟨by decide,
   resume_skips_truthy_commit anOk "r" "h1" s0C6 csC6 (StoreVal.loaded true)
     (by decide) rfl ("h2", "b.py") (by decide)⟩

/-- Claim C7: a successful analysis of a qualifying file stores the enriched
result under the commit hash, immediately makes the disk hold exactly the
whole updated in-memory store, and loses no previously stored entry. -/
theorem persist_after_each_file (a : String → Except String Debt)
    (repo hsh : String) (m : ModifiedFile) (st : RunState) (d : Debt)
    (herr : st.err = none) (hq : qualifies m = true)
    (hd : a (m.source_code.getD "") = Except.ok d) :
    (processFile a repo hsh m st).debts
      = storeInsert hsh (StoreVal.enriched
          { payload := d, location := m.new_path, repository := repo }) st.debts
    ∧ (processFile a repo hsh m st).disk = some (processFile a repo hsh m st).debts
    ∧ ∀ k, (storeLookup k st.debts).isSome = true →
        (storeLookup k (processFile a repo hsh m st).debts).isSome = true := by
  have he : st.err.isSome = false := by rw [herr]; rfl
  have h1 : (processFile a repo hsh m st).debts
      = storeInsert hsh (StoreVal.enriched
          { payload := d, location := m.new_path, repository := repo }) st.debts := by
    simp [processFile, he, hq, hd]
  have h2 : (processFile a repo hsh m st).disk
      = some (storeInsert hsh (StoreVal.enriched
          { payload := d, location := m.new_path, repository := repo }) st.debts) := by
    simp [processFile, he, hq, hd]
  refine ⟨h1, ?_, ?_⟩
  · rw [h1, h2]
  · intro k hk
    rw [h1]
    exact storeLookup_isSome_insert k hsh _ st.debts hk

/-- Claim C7 witness: the statement applied to one qualifying file analyzed
against a store already holding the earlier entry h0, which survives. -/
theorem persist_after_each_file_witness :
    (processFile anOk "r" "h1" mA stH0).debts
      = storeInsert "h1" (StoreVal.enriched
          { payload := "x", location := "a.py", repository := "r" }) stH0.debts
    ∧ (processFile anOk "r" "h1" mA stH0).disk = some (processFile anOk "r" "h1" mA stH0).debts
    ∧ (storeLookup "h0" (processFile anOk "r" "h1" mA stH0).debts).isSome = true := by
  have T := persist_after_each_file anOk "r" "h1" mA stH0 "x" rfl (by decide) rfl
  exact ⟨T.1, T.2.1, T.2.2 "h0" (by decide)⟩

/-- Claim C8: on a commit whose qualifying files all validate, the client is
invoked on each qualifying file in order, every result is written under the
one commit-hash key, and the store afterwards holds exactly the last
qualifying file result under that key. -/
theorem commit_last_file_wins (a : String → Except String Debt) (repo : String)
    (c : Commit) (st : RunState) (fs : List ModifiedFile) (mlast : ModifiedFile) (d : Debt)
    (herr : st.err = none)
    (hskip : skipCommit c.hash st.debts = false)
    (hall : (c.modified_files.filter qualifies).all
        (fun m => exceptIsOk (a (m.source_code.getD ""))) = true)
    (hsnoc : c.modified_files.filter qualifies = fs ++ [mlast])
    (hd : a (mlast.source_code.getD "") = Except.ok d) :
    storeLookup c.hash (processCommit a repo c st).debts
      = some (StoreVal.enriched
          { payload := d, location := mlast.new_path, repository := repo })
    ∧ (processCommit a repo c st).calls
      = st.calls ++ (fs ++ [mlast]).map (fun m => (c.hash, m.new_path)) := by
  have he : st.err.isSome = false := by rw [herr]; rfl
  have hpc : processCommit a repo c st
      = processFiles a repo c.hash c.modified_files st := by
    simp [processCommit, he, hskip]
  obtain ⟨i1, i2, i3⟩ := processFiles_spec a repo c.hash c.modified_files st herr hall
  constructor
  · rw [hpc, i3, hsnoc, List.foldl_append]
    simp [enrichFile, hd, storeLookup_insert_self]
  · rw [hpc, i2, hsnoc]

/-- Claim C8 witness: a commit with two qualifying files; both are analyzed
and the key h1 ends holding the result of the second file b.py. -/
theorem commit_last_file_wins_witness :
    storeLookup "h1" (processCommit anOk "r" cTwo stEmpty).debts
      = some (StoreVal.enriched
          { payload := "code2", location := "b.py", repository := "r" })
    ∧ (processCommit anOk "r" cTwo stEmpty).calls = [("h1", "a.py"), ("h1", "b.py")] := by
  have T := commit_last_file_wins anOk "r" cTwo stEmpty
      [{ new_path := "a.py", source_code := some "code1" }]
      { new_path := "b.py", source_code := some "code2" } "code2"
      rfl (by decide) (by decide) (by decide) rfl
  refine ⟨T.1, ?_⟩
  rw [T.2]
  rfl

/-- Claim C10: a run started without resume over an existing store file
never consults that file — every value the in-memory store ever holds is an
enriched result of this run — and the disk is either still untouched or
holds exactly the current in-memory store, so the first flush overwrites the
old file wholesale, discarding every previously persisted result. -/
theorem no_resume_discards_existing_store (a : String → Except String Debt)
    (repo : String) (s0 : Store) (cs : List Commit) :
    (∀ k v, storeLookup k (main a repo false (some s0) cs).debts = some v →
        ∃ e, v = StoreVal.enriched e)
    ∧ ((main a repo false (some s0) cs).disk = some s0
       ∨ (main a repo false (some s0) cs).disk
          = some (main a repo false (some s0) cs).debts) := by
  have hm : main a repo false (some s0) cs
      = processCommits a repo cs { debts := [], disk := some s0, calls := [], err := none } := by
    simp [main]
  rw [hm]
  exact processCommits_storeInv a repo (some s0) cs
    { debts := [], disk := some s0, calls := [], err := none }
    (by intro q v hv; simp [storeLookup] at hv) (Or.inl rfl)

/-- Claim C10 witness: a no-resume run over the stale store s0Old analyzes
one file; the stored value is enriched, and the old entry is gone from the
in-memory store that the flush persists. -/
theorem no_resume_discards_existing_store_witness :
    (∃ e, StoreVal.enriched { payload := "x", location := "a.py", repository := "r" }
        = StoreVal.enriched e)
    ∧ ((main anOk "r" false (some s0Old) csNew).disk = some s0Old
       ∨ (main anOk "r" false (some s0Old) csNew).disk
          = some (main anOk "r" false (some s0Old) csNew).debts)
    ∧ storeLookup "old" (main anOk "r" false (some s0Old) csNew).debts = none := by
  have T := no_resume_discards_existing_store anOk "r" s0Old csNew
  exact ⟨T.1 "h1" (StoreVal.enriched { payload := "x", location := "a.py", repository := "r" })
      (by decide), T.2, by decide⟩

end DebtGuardian
